import Mathlib

/-!
Shallow embedding of `src/components/FaceRecognition.tsx`.

The component's own logic is the debounce polling loop inside
`handleVideoPlay` (lines 45–104): every 1000 ms the interval callback asks
the external recognizer for the faces currently visible, matches each one to
a label, and

* for each matched result whose label is not `"unknown"` it sets a
  `faceDetected` flag and, when the guard
  `!lastMarkedTime[studentName] || now - lastMarkedTime[studentName] > 60000`
  (line 89) passes, stores `now` in `lastMarkedTime` and calls
  `onAttendanceMarked` (lines 90–91);
* after the `forEach`, it calls `onFaceNotDetected` iff no result had a
  known label (lines 96–98).

The recognizer, the camera and the canvas drawing are external; a tick is
modelled by the list of matched labels it produced, each paired with the
value `Date.now()` returned at that loop iteration (line 85).  JavaScript
subtraction and comparison on these millisecond timestamps is modelled on
`Int`.  A JavaScript object lookup of an absent key yields `undefined`, and
`!x` is true both for `undefined` and for the number `0`; the model keeps
that behaviour.
-/

namespace FaceAttendance

/-- The debounce window in milliseconds (the literal `60000` on line 89). -/
def cooldown : Int := 60000

/-- The map `lastMarkedTime` (line 49): label to the `Date.now()` value
stored at the last successful notification.  Absent keys read as `none`. -/
abbrev LastSeen := String → Option Int

/-- The fresh empty map each call of `handleVideoPlay` creates on
line 49. -/
def emptyLastSeen : LastSeen := fun _ => none

/-- The assignment `lastMarkedTime[studentName] = now` (line 90). -/
def setLast (m : LastSeen) (name : String) (t : Int) : LastSeen :=
  fun x => if x = name then some t else m x

/-- The guard on line 89:
`!lastMarkedTime[studentName] || now - lastMarkedTime[studentName] > 60000`.
`!x` is true for an absent entry (`undefined`) and also for the stored
number `0`, so a stored timestamp of `0` passes the guard regardless of
`now`. -/
def markCond (m : LastSeen) (name : String) (now : Int) : Bool :=
  match m name with
  | none => true
  | some t => t == 0 || decide (cooldown < now - t)

/-- The callbacks the component can invoke during one tick.  `marked`
records the label passed to `onAttendanceMarked` together with the
`Date.now()` value read at that call site (lines 85 and 91); `notDetected`
is `onFaceNotDetected` (line 97); `detected` stands for the `onFaceDetected`
prop the component receives (lines 7 and 10). -/
inductive Event : Type where
  | marked (label : String) (time : Int)
  | notDetected
  | detected (label : String)
deriving DecidableEq, Repr

/-- Lines 84–93: the body of `results.forEach` for one matched result,
given the current map, the current `faceDetected` flag, the matched label
(`result.label`, line 84) and the `Date.now()` read on line 85.  Returns
the updated map, the updated flag and the callbacks invoked, in order. -/
def processDetection (m : LastSeen) (fd : Bool) (name : String) (now : Int) :
    LastSeen × Bool × List Event :=
  if name = "unknown" then (m, fd, [])
  else if markCond m name now then
    (setLast m name now, true, [Event.marked name now])
  else (m, true, [])

/-- Lines 76–94: `results.forEach(...)`, processing the tick's matched
results in array order, threading the map and the `faceDetected` flag. -/
def runResults (m : LastSeen) (fd : Bool) (rs : List (String × Int)) :
    LastSeen × Bool × List Event :=
  match rs with
  | [] => (m, fd, [])
  | (name, now) :: rest =>
    let s := processDetection m fd name now
    let s' := runResults s.1 s.2.1 rest
    (s'.1, s'.2.1, s.2.2 ++ s'.2.2)

/-- Lines 74–98: one executed tick of the interval callback, from the
matched results the recognizer produced: `faceDetected` starts `false`
(line 74), the `forEach` runs, and `onFaceNotDetected` fires iff the flag
is still `false` afterwards (lines 96–98). -/
def runTick (m : LastSeen) (rs : List (String × Int)) : LastSeen × List Event :=
  let s := runResults m false rs
  (s.1, s.2.2 ++ if s.2.1 then [] else [Event.notDetected])

/-- Lines 51–101: the interval callback body has no try/catch, so when the
awaited detection request rejects, the callback aborts before the
`forEach`: no callback fires in that tick and the map is unchanged (the
rejection becomes an unhandled promise rejection; it does not affect the
interval itself). -/
def runTickE (m : LastSeen) (d : Except Unit (List (String × Int))) :
    LastSeen × List Event :=
  match d with
  | Except.error _ => (m, [])
  | Except.ok rs => runTick m rs

/-- One session of the loop: `handleVideoPlay` (line 45) creates the fresh
map, and the interval then executes the given sequence of ticks, each
either a detection failure or a list of matched results; the events of all
ticks are concatenated in order. -/
def runSession (m : LastSeen) (ticks : List (Except Unit (List (String × Int)))) :
    LastSeen × List Event :=
  match ticks with
  | [] => (m, [])
  | d :: rest =>
    let s := runTickE m d
    let s' := runSession s.1 rest
    (s'.1, s.2 ++ s'.2)

/-- The `Date.now()` timestamps at which `onAttendanceMarked l` was called,
in order of occurrence. -/
def marksOf (l : String) (es : List Event) : List Int :=
  es.filterMap fun e =>
    match e with
    | Event.marked l' t => if l' = l then some t else none
    | _ => none

/-- All `Date.now()` values of a tick are positive, as they are for any
clock not set to (or before) the 1970 epoch. -/
def resultTimesPos (rs : List (String × Int)) : Bool :=
  rs.all fun p => decide (0 < p.2)

/-- A tick either failed or carries positive timestamps. -/
def tickTimesPos : Except Unit (List (String × Int)) → Bool
  | Except.error _ => true
  | Except.ok rs => resultTimesPos rs

/-- Every tick of the session carries positive `Date.now()` values. -/
def sessionTimesPos (ticks : List (Except Unit (List (String × Int)))) : Bool :=
  ticks.all tickTimesPos

/-- The `Date.now()` values read during one synchronous `forEach` lie
within one cooldown window of each other. -/
def resultTimesClose (rs : List (String × Int)) : Bool :=
  rs.all fun p => rs.all fun q => decide (p.2 - q.2 ≤ cooldown)

/-- The suppression test for one result: its label has a stored, non-zero
timestamp within the cooldown window of the result's `Date.now()`. -/
def withinCooldown (m : LastSeen) (p : String × Int) : Bool :=
  match m p.1 with
  | none => false
  | some t => !(t == 0) && decide (p.2 - t ≤ cooldown)

/-- Lines 51–101 with the nullability of the two refs made explicit.
`refsStart` is the line-52 guard `videoRef.current && canvasRef.current`
when the timer fires: if it fails, the tick body does not run at all.
`videoAtResume` and `canvasAtResume` are the refs when the awaited
detection resolves; React nulls both refs on unmount, so both are `false`
for a request still in flight at teardown.  Line 59 then dereferences
`videoRef.current.videoWidth` without a null check — a null video ref
throws there, aborting the continuation before the forEach — and line 63
re-checks the canvas ref before the block that invokes any callback.  Only
with both refs still set does the tick body of `runTick` run. -/
def tickWithRefs (refsStart videoAtResume canvasAtResume : Bool)
    (m : LastSeen) (d : Except Unit (List (String × Int))) :
    LastSeen × List Event :=
  if refsStart then
    match d with
    | Except.error _ => (m, [])
    | Except.ok rs =>
      if videoAtResume then
        if canvasAtResume then runTick m rs
        else (m, [])
      else (m, [])
  else (m, [])

/-- Line 51/101: `setInterval(async () => {...}, 1000)` starts detection
request `k` (k = 0, 1, 2, …) at time 1000·(k+1) ms; nothing in the body
checks whether an earlier request is still pending. -/
def requestStart (k : Nat) : Int := 1000 * (k + 1)

/-- How many of the first `n` detection requests are in flight at time `τ`
when request `k` takes `lat k` milliseconds to resolve: request `k`
occupies the half-open interval from its start until its latency has
elapsed. -/
def inFlightCount (lat : Nat → Int) (n : Nat) (τ : Int) : Nat :=
  (List.range n).countP fun k =>
    decide (requestStart k ≤ τ ∧ τ < requestStart k + lat k)

/-! ## Basic lemmas about the embedded operations -/

theorem setLast_self (m : LastSeen) (name : String) (t : Int) :
    setLast m name t name = some t := by
  simp [setLast]

theorem setLast_other (m : LastSeen) (name x : String) (t : Int) (h : x ≠ name) :
    setLast m name t x = m x := by
  simp [setLast, h]

theorem marksOf_nil (l : String) : marksOf l [] = [] := rfl

theorem marksOf_append (l : String) (es es' : List Event) :
    marksOf l (es ++ es') = marksOf l es ++ marksOf l es' := by
  simp [marksOf]

theorem marksOf_marked_self (l : String) (t : Int) (es : List Event) :
    marksOf l (Event.marked l t :: es) = t :: marksOf l es := by
  simp [marksOf]

theorem marksOf_marked_other (l l' : String) (t : Int) (es : List Event) (h : l' ≠ l) :
    marksOf l (Event.marked l' t :: es) = marksOf l es := by
  simp [marksOf, h]

theorem marksOf_ite_notDetected (l : String) (b : Bool) :
    marksOf l (if b then [] else [Event.notDetected]) = [] := by
  cases b <;> simp [marksOf]

theorem runResults_nil (m : LastSeen) (fd : Bool) : runResults m fd [] = (m, fd, []) := rfl

theorem runResults_cons (m : LastSeen) (fd : Bool) (name : String) (now : Int)
    (rest : List (String × Int)) :
    runResults m fd ((name, now) :: rest)
      = ((runResults (processDetection m fd name now).1
            (processDetection m fd name now).2.1 rest).1,
         (runResults (processDetection m fd name now).1
            (processDetection m fd name now).2.1 rest).2.1,
         (processDetection m fd name now).2.2
           ++ (runResults (processDetection m fd name now).1
                 (processDetection m fd name now).2.1 rest).2.2) := rfl

theorem processDetection_unknown (m : LastSeen) (fd : Bool) (now : Int) :
    processDetection m fd "unknown" now = (m, fd, []) := by
  simp [processDetection]

theorem processDetection_mark (m : LastSeen) (fd : Bool) (name : String) (now : Int)
    (hname : name ≠ "unknown") (hc : markCond m name now = true) :
    processDetection m fd name now = (setLast m name now, true, [Event.marked name now]) := by
  simp [processDetection, hname, hc]

theorem processDetection_skip (m : LastSeen) (fd : Bool) (name : String) (now : Int)
    (hname : name ≠ "unknown") (hc : markCond m name now = false) :
    processDetection m fd name now = (m, true, []) := by
  simp [processDetection, hname, hc]

theorem runResults_flag (rs : List (String × Int)) :
    ∀ (m : LastSeen) (fd : Bool),
      (runResults m fd rs).2.1 = (fd || rs.any fun p => !(p.1 == "unknown")) := by
  induction rs with
  | nil => intro m fd; simp [runResults]
  | cons p rest ih =>
    intro m fd
    obtain ⟨name, now⟩ := p
    rw [runResults_cons]
    by_cases hname : name = "unknown"
    · subst hname
      simp only [processDetection_unknown]
      rw [ih]
      simp
    · cases hmc : markCond m name now with
      | false =>
        simp only [processDetection_skip m fd name now hname hmc]
        rw [ih]
        simp [hname]
      | true =>
        simp only [processDetection_mark m fd name now hname hmc]
        rw [ih]
        simp [hname]

theorem runResults_events (rs : List (String × Int)) :
    ∀ (m : LastSeen) (fd : Bool) (e : Event), e ∈ (runResults m fd rs).2.2 →
      ∃ l t, e = Event.marked l t := by
  induction rs with
  | nil => intro m fd e h; simp [runResults] at h
  | cons p rest ih =>
    intro m fd e h
    obtain ⟨name, now⟩ := p
    rw [runResults_cons] at h
    simp only [List.mem_append] at h
    rcases h with h | h
    · by_cases hname : name = "unknown"
      · subst hname
        simp [processDetection_unknown] at h
      · cases hmc : markCond m name now with
        | false =>
          rw [processDetection_skip m fd name now hname hmc] at h
          simp at h
        | true =>
          rw [processDetection_mark m fd name now hname hmc] at h
          simp at h
          exact ⟨name, now, h⟩
    · exact ih _ _ _ h

theorem tick_events_shape (m : LastSeen) (d : Except Unit (List (String × Int))) :
    ∀ e ∈ (runTickE m d).2, (∃ l t, e = Event.marked l t) ∨ e = Event.notDetected := by
  intro e he
  cases d with
  | error u => simp [runTickE] at he
  | ok rs =>
    simp only [runTickE, runTick, List.mem_append] at he
    rcases he with he | he
    · exact Or.inl (runResults_events rs m false e he)
    · right
      cases hf : (runResults m false rs).2.1 <;> rw [hf] at he <;> simp at he
      exact he

/-! ## The cooldown invariant -/

theorem chain_gap_pairwise {ts : List Int}
    (h : ts.Chain' fun a b => cooldown < b - a) :
    ts.Pairwise fun a b => cooldown < b - a := by
  haveI : IsTrans Int fun a b => cooldown < b - a :=
    ⟨fun a b c h₁ h₂ => by simp only [cooldown] at h₁ h₂ ⊢; omega⟩
  exact List.chain'_iff_pairwise.mp h

/-- The per-tick invariant: if the stored entry for label `l` is exactly
the last of the timestamps `ts` at which `l` was marked so far (absent iff
`ts` is empty), all those timestamps are positive, and consecutive ones
are more than a cooldown apart, then running the forEach on results with
positive timestamps preserves all three facts, with the timestamps of the
new `marked l` events appended. -/
theorem runResults_marks_inv (l : String) (rs : List (String × Int)) :
    ∀ (m : LastSeen) (fd : Bool) (ts : List Int),
      (∀ p ∈ rs, 0 < p.2) →
      m l = ts.getLast? →
      (∀ t ∈ ts, 0 < t) →
      ts.Chain' (fun a b => cooldown < b - a) →
      ((runResults m fd rs).1 l
          = (ts ++ marksOf l (runResults m fd rs).2.2).getLast?
        ∧ (∀ t ∈ ts ++ marksOf l (runResults m fd rs).2.2, 0 < t)
        ∧ (ts ++ marksOf l (runResults m fd rs).2.2).Chain'
            fun a b => cooldown < b - a) := by
  induction rs with
  | nil =>
    intro m fd ts _ hml hts hchain
    simp only [runResults, marksOf_nil, List.append_nil]
    exact ⟨hml, hts, hchain⟩
  | cons p rest ih =>
    intro m fd ts hpos hml hts hchain
    obtain ⟨name, now⟩ := p
    have hnow : 0 < now := hpos _ (List.mem_cons_self _ _)
    have hposr : ∀ q ∈ rest, 0 < q.2 := fun q hq => hpos q (List.mem_cons_of_mem _ hq)
    rw [runResults_cons]
    by_cases hname : name = "unknown"
    · subst hname
      simp only [processDetection_unknown, List.nil_append]
      exact ih m fd ts hposr hml hts hchain
    · cases hmc : markCond m name now with
      | false =>
        simp only [processDetection_skip m fd name now hname hmc, List.nil_append]
        exact ih m true ts hposr hml hts hchain
      | true =>
        simp only [processDetection_mark m fd name now hname hmc]
        by_cases hl : name = l
        · subst hl
          have hchain' : (ts ++ [now]).Chain' fun a b => cooldown < b - a := by
            rw [List.chain'_append]
            refine ⟨hchain, List.chain'_singleton _, ?_⟩
            intro x hx y hy
            simp only [List.head?_cons, Option.mem_def, Option.some.injEq] at hy
            subst hy
            have hmx : m name = some x := by rw [hml]; exact hx
            have hxts : x ∈ ts := by
              obtain ⟨hne, hx'⟩ := List.mem_getLast?_eq_getLast hx
              rw [hx']
              exact List.getLast_mem hne
            have hx0 : x ≠ 0 := by have := hts x hxts; omega
            have hmc' := hmc
            simp only [markCond, hmx, Bool.or_eq_true, beq_iff_eq,
              decide_eq_true_eq] at hmc'
            rcases hmc' with h | h
            · exact absurd h hx0
            · exact h
          have hts' : ∀ t ∈ ts ++ [now], 0 < t := by
            intro t ht
            rcases List.mem_append.mp ht with h | h
            · exact hts t h
            · simp only [List.mem_singleton] at h
              subst h
              exact hnow
          have hml' : setLast m name now name = (ts ++ [now]).getLast? := by
            rw [setLast_self, List.getLast?_concat]
          have hres := ih (setLast m name now) true (ts ++ [now]) hposr hml' hts' hchain'
          rw [List.singleton_append, marksOf_marked_self]
          have hassoc :
              ts ++ now :: marksOf name
                  (runResults (setLast m name now) true rest).2.2
                = (ts ++ [now])
                  ++ marksOf name (runResults (setLast m name now) true rest).2.2 := by
            simp
          rw [hassoc]
          exact hres
        · have hml2 : setLast m name now l = m l :=
            setLast_other m name l now fun h => hl h.symm
          rw [List.singleton_append, marksOf_marked_other l name now _ hl]
          exact ih (setLast m name now) true ts hposr (by rw [hml2, hml]) hts hchain

/-- The session-level invariant: folding ticks preserves the relation
between the stored entry for a label and the chain of its notification
timestamps. -/
theorem runSession_marks_inv (l : String)
    (ticks : List (Except Unit (List (String × Int)))) :
    ∀ (m : LastSeen) (ts : List Int),
      sessionTimesPos ticks = true →
      m l = ts.getLast? →
      (∀ t ∈ ts, 0 < t) →
      ts.Chain' (fun a b => cooldown < b - a) →
      ((runSession m ticks).1 l
          = (ts ++ marksOf l (runSession m ticks).2).getLast?
        ∧ (∀ t ∈ ts ++ marksOf l (runSession m ticks).2, 0 < t)
        ∧ (ts ++ marksOf l (runSession m ticks).2).Chain'
            fun a b => cooldown < b - a) := by
  induction ticks with
  | nil =>
    intro m ts _ hml hts hchain
    simp only [runSession, marksOf_nil, List.append_nil]
    exact ⟨hml, hts, hchain⟩
  | cons d rest ih =>
    intro m ts hpos hml hts hchain
    rw [sessionTimesPos, List.all_cons, Bool.and_eq_true] at hpos
    obtain ⟨hd, hrest⟩ := hpos
    cases d with
    | error u =>
      simp only [runSession, runTickE, List.nil_append]
      exact ih m ts hrest hml hts hchain
    | ok rs =>
      have hpos' : ∀ p ∈ rs, 0 < p.2 := by
        simpa [tickTimesPos, resultTimesPos, List.all_eq_true] using hd
      have h1 := runResults_marks_inv l rs m false ts hpos' hml hts hchain
      simp only [runSession, runTickE, runTick]
      rw [marksOf_append, marksOf_append, marksOf_ite_notDetected, List.append_nil]
      have h2 := ih (runResults m false rs).1
        (ts ++ marksOf l (runResults m false rs).2.2) hrest h1.1 h1.2.1 h1.2.2
      simpa [List.append_assoc] using h2

/-! ## Claim theorems -/

/-- Claim C1: in any session (with the positive `Date.now()` timestamps a
real clock produces), any two `onAttendanceMarked` notifications for the
same label are strictly more than the 60000 ms cooldown apart: the list of
notification timestamps for each label is pairwise separated by more than
`cooldown`. -/
theorem cooldown_invariant (ticks : List (Except Unit (List (String × Int))))
    (hpos : sessionTimesPos ticks = true) (l : String) :
    (marksOf l (runSession emptyLastSeen ticks).2).Pairwise
      fun a b => cooldown < b - a := by
  have h := runSession_marks_inv l ticks emptyLastSeen [] hpos rfl
    (by intro t ht; simp at ht) List.chain'_nil
  have hchain := h.2.2
  rw [List.nil_append] at hchain
  exact chain_gap_pairwise hchain

/-- Witness for the claim C1 theorem: a session of two ticks marking
`"Student1"` at times 1 and 70000 satisfies the invariant. -/
theorem cooldown_invariant_witness :
    (marksOf "Student1" (runSession emptyLastSeen
        [Except.ok [("Student1", 1)], Except.ok [("Student1", 70000)]]).2).Pairwise
      (fun a b => cooldown < b - a) :=
  cooldown_invariant
    [Except.ok [("Student1", 1)], Except.ok [("Student1", 70000)]]
    (by decide) "Student1"

/-- Claim C2: for a detection whose label is not `"unknown"`, if the label
has no prior `lastMarkedTime` entry or `now` minus the entry strictly
exceeds the 60000 ms cooldown, the forEach body stores `now` for the label
and calls `onAttendanceMarked`; otherwise (a positive entry within the
cooldown, as every entry written from a positive `Date.now()` is) it
neither updates the entry nor emits anything for that detection. -/
theorem detection_step_spec (m : LastSeen) (fd : Bool) (name : String) (now : Int)
    (hname : name ≠ "unknown") :
    ((m name = none ∨ ∃ t, m name = some t ∧ cooldown < now - t) →
        processDetection m fd name now
          = (setLast m name now, true, [Event.marked name now]))
      ∧ (∀ t, m name = some t → 0 < t → now - t ≤ cooldown →
        processDetection m fd name now = (m, true, [])) := by
  constructor
  · rintro (h | ⟨t, ht, hgap⟩)
    · exact processDetection_mark m fd name now hname (by simp [markCond, h])
    · exact processDetection_mark m fd name now hname (by simp [markCond, ht, hgap])
  · intro t ht htpos hle
    apply processDetection_skip m fd name now hname
    have h0 : (t == 0) = false := by simp; omega
    have h1 : decide (cooldown < now - t) = false :=
      decide_eq_false (Int.not_lt.mpr hle)
    simp [markCond, ht, h0, h1]

/-- Witness for the claim C2 theorem at a concrete input: a first-ever
detection of `"Student1"` at time 5 stores the time and fires the
callback. -/
theorem detection_step_spec_witness :
    processDetection emptyLastSeen false "Student1" 5
      = (setLast emptyLastSeen "Student1" 5, true, [Event.marked "Student1" 5]) :=
  (detection_step_spec emptyLastSeen false "Student1" 5 (by decide)).1 (Or.inl rfl)

/-- Claim C4 counterexample: a failed detection is not treated as a
zero-detection tick.  A tick whose detection request rejects fires no
callback at all, while a tick with zero detections fires
`onFaceNotDetected`; the two observable outcomes differ. -/
theorem failed_tick_counterexample :
    (runTickE emptyLastSeen (Except.error ())).2 = []
      ∧ (runTickE emptyLastSeen (Except.ok [])).2 = [Event.notDetected]
      ∧ (runTickE emptyLastSeen (Except.error ())).2
          ≠ (runTickE emptyLastSeen (Except.ok [])).2 := by
  decide

/-- Claim C4 (amended): a detection failure in a tick aborts that tick's
callback with no events and no change to `lastMarkedTime` (it is not
caught, so in particular `onFaceNotDetected` does not fire as it would on
a zero-detection tick), and the interval is unaffected: the session
continues exactly as if the failed tick had not occurred. -/
theorem failed_tick_behavior (m : LastSeen)
    (rest : List (Except Unit (List (String × Int)))) :
    runTickE m (Except.error ()) = (m, [])
      ∧ runSession m (Except.error () :: rest) = runSession m rest := by
  refine ⟨rfl, ?_⟩
  simp [runSession, runTickE]

/-- While the session is running both refs are live, and a tick behaves
exactly as `runTickE` describes. -/
theorem tickWithRefs_live (m : LastSeen) (d : Except Unit (List (String × Int))) :
    tickWithRefs true true true m d = runTickE m d := by
  cases d <;> rfl

/-- Claim C5: after teardown, no callback (`onAttendanceMarked`,
`onFaceNotDetected`, `onFaceDetected`) ever fires, even if a detection
request initiated before teardown resolves afterwards.  Unmount nulls both
refs: a request still in flight resolves into the unchecked line-59
dereference of `videoRef.current.videoWidth` and aborts before reaching
any callback, and every later firing of the timer (the line-103 cleanup is
discarded by the `onPlay` dispatcher, so the interval itself keeps firing)
fails the line-52 guard.  Either way the tick produces no events and
leaves the map unchanged. -/
theorem no_callback_after_teardown (m : LastSeen)
    (d : Except Unit (List (String × Int))) (refsStart : Bool) :
    (tickWithRefs refsStart false false m d).2 = []
      ∧ (tickWithRefs refsStart false false m d).1 = m := by
  cases refsStart <;> cases d <;> simp [tickWithRefs]

/-- Claim C6 counterexample (negation of the claim): no tick ever invokes
the `onFaceDetected` prop — the component receives it (line 10) but never
calls it, so no detected-event can occur in any tick's event list. -/
theorem no_tick_invokes_onDetected :
    ¬ ∃ (m : LastSeen) (d : Except Unit (List (String × Int))) (l : String),
      Event.detected l ∈ (runTickE m d).2 := by
  rintro ⟨m, d, l, h⟩
  rcases tick_events_shape m d _ h with ⟨l', t', he⟩ | he <;> simp at he

/-- Claim C6 (amended): the only callbacks a tick ever invokes are
`onAttendanceMarked` and `onFaceNotDetected`; the `onFaceDetected` prop is
accepted but never called. -/
theorem tick_callbacks_marked_or_notDetected (m : LastSeen)
    (d : Except Unit (List (String × Int))) (e : Event)
    (he : e ∈ (runTickE m d).2) :
    (∃ l t, e = Event.marked l t) ∨ e = Event.notDetected :=
  tick_events_shape m d e he

/-- Witness for the amended claim C6 theorem at a concrete tick. -/
theorem tick_callbacks_marked_or_notDetected_witness :
    (∃ l t, Event.marked "Student1" 5 = Event.marked l t)
      ∨ Event.marked "Student1" 5 = Event.notDetected :=
  tick_callbacks_marked_or_notDetected emptyLastSeen (Except.ok [("Student1", 5)])
    (Event.marked "Student1" 5) (by decide)

/-- Claim C8 counterexample: with the 1000 ms interval and a detection
latency of 2500 ms per request, requests 0, 1 and 2 are all still in
flight at t = 3100 ms — the code never skips or queues an overlapping
tick, so more than one detection request is in flight at once. -/
theorem overlapping_requests_counterexample :
    2 ≤ inFlightCount (fun _ => 2500) 3 3100 := by
  decide

/-- Claim C8 (amended): `setInterval` fires the async callback every
1000 ms regardless of whether the previous tick's detection request has
completed; whenever a request's latency exceeds the 1000 ms period, it is
still in flight when the next request starts, so two detection requests
run concurrently. -/
theorem requests_overlap (lat : Nat → Int) (k : Nat)
    (h₁ : 1000 < lat k) (h₂ : 0 < lat (k + 1)) :
    2 ≤ inFlightCount lat (k + 2) (requestStart (k + 1)) := by
  have hpk : requestStart k ≤ requestStart (k + 1)
      ∧ requestStart (k + 1) < requestStart k + lat k := by
    constructor
    · simp only [requestStart]
      push_cast
      omega
    · simp only [requestStart]
      push_cast
      omega
  have hpk1 : requestStart (k + 1) ≤ requestStart (k + 1)
      ∧ requestStart (k + 1) < requestStart (k + 1) + lat (k + 1) :=
    ⟨le_refl _, by omega⟩
  have hsub : List.Sublist [k, k + 1] (List.range (k + 2)) := by
    have hr : List.range (k + 2) = List.range k ++ [k, k + 1] := by
      rw [List.range_succ, List.range_succ, List.append_assoc]
      rfl
    rw [hr]
    exact List.sublist_append_right _ _
  have hle := hsub.countP_le
    (fun j => decide (requestStart j ≤ requestStart (k + 1)
      ∧ requestStart (k + 1) < requestStart j + lat j))
  have hc : ([k, k + 1].countP
      (fun j => decide (requestStart j ≤ requestStart (k + 1)
        ∧ requestStart (k + 1) < requestStart j + lat j))) = 2 := by
    simp [List.countP_cons, hpk, hpk1.1, hpk1.2]
  rw [inFlightCount]
  rw [hc] at hle
  exact hle

/-- Witness for the amended claim C8 theorem: a 2500 ms latency against
the 1000 ms period puts both request 0 and request 1 in flight when
request 1 starts. -/
theorem requests_overlap_witness :
    2 ≤ inFlightCount (fun _ => 2500) 2 (requestStart 1) :=
  requests_overlap (fun _ => 2500) 0 (by decide) (by decide)

/-- If every detection in the tick is either `"unknown"` or suppressed by
the cooldown test, the forEach changes nothing and emits nothing, and the
`faceDetected` flag records exactly whether some known label occurred. -/
theorem runResults_all_within (rs : List (String × Int)) :
    ∀ (m : LastSeen) (fd : Bool),
      (∀ p ∈ rs, p.1 = "unknown" ∨ withinCooldown m p = true) →
      runResults m fd rs = (m, (fd || rs.any fun p => !(p.1 == "unknown")), []) := by
  induction rs with
  | nil => intro m fd _; simp [runResults]
  | cons p rest ih =>
    intro m fd h
    obtain ⟨name, now⟩ := p
    rw [runResults_cons]
    by_cases hname : name = "unknown"
    · subst hname
      simp only [processDetection_unknown]
      rw [ih m fd fun q hq => h q (List.mem_cons_of_mem _ hq)]
      simp
    · have hw : withinCooldown m (name, now) = true := by
        rcases h _ (List.mem_cons_self _ _) with hu | hw
        · exact absurd hu hname
        · exact hw
      have hmc : markCond m name now = false := by
        rcases hmn : m name with _ | t
        · simp [withinCooldown, hmn] at hw
        · simp only [withinCooldown, hmn, Bool.and_eq_true, Bool.not_eq_true',
            decide_eq_true_eq] at hw
          obtain ⟨h0, hle⟩ := hw
          simp [markCond, hmn, h0, decide_eq_false (Int.not_lt.mpr hle)]
      simp only [processDetection_skip m fd name now hname hmc]
      rw [ih m true fun q hq => h q (List.mem_cons_of_mem _ hq)]
      simp [hname]

/-- Claim C10: a tick can emit zero callbacks — when some detection has a
known label (so `onFaceNotDetected` is suppressed) but every known label
is still within its cooldown window (so every `onAttendanceMarked` is
suppressed), the tick fires nothing and leaves the map unchanged. -/
theorem quiet_tick (m : LastSeen) (rs : List (String × Int))
    (hknown : (rs.any fun p => !(p.1 == "unknown")) = true)
    (hcool : (rs.all fun p => p.1 == "unknown" || withinCooldown m p) = true) :
    (runTick m rs).2 = [] ∧ (runTick m rs).1 = m := by
  have h : ∀ p ∈ rs, p.1 = "unknown" ∨ withinCooldown m p = true := by
    intro p hp
    have hq := List.all_eq_true.mp hcool p hp
    simpa using hq
  have hr := runResults_all_within rs m false h
  constructor
  · simp [runTick, hr, hknown]
  · simp [runTick, hr]

/-- Witness for the claim C10 theorem: `"Student1"`, marked at time 1000,
detected again at time 30000 — inside the cooldown — produces no callback
at all. -/
theorem quiet_tick_witness :
    (runTick (fun x => if x = "Student1" then some 1000 else none)
      [("Student1", 30000)]).2 = []
      ∧ (runTick (fun x => if x = "Student1" then some 1000 else none)
          [("Student1", 30000)]).1
        = fun x => if x = "Student1" then some 1000 else none :=
  quiet_tick _ _ (by decide) (by decide)

/-- Claim C3: `onFaceNotDetected` fires in a tick exactly when every
matched result carries the label `"unknown"` (in particular on an empty
tick); and a tick yielding one `"unknown"` face and one `"Student1"` face
with no cooldown pending fires exactly one
`onAttendanceMarked("Student1")` and no `onFaceNotDetected`. -/
theorem notDetected_iff_no_known :
    (∀ (m : LastSeen) (rs : List (String × Int)),
      Event.notDetected ∈ (runTick m rs).2 ↔ ∀ p ∈ rs, p.1 = "unknown")
      ∧ (runTick emptyLastSeen [("unknown", 5), ("Student1", 5)]).2
          = [Event.marked "Student1" 5] := by
  constructor
  · intro m rs
    have hflag := runResults_flag rs m false
    rw [Bool.false_or] at hflag
    constructor
    · intro hmem
      simp only [runTick, List.mem_append] at hmem
      rcases hmem with h | h
      · obtain ⟨l', t', he⟩ := runResults_events rs m false _ h
        simp at he
      · cases hf : (runResults m false rs).2.1 with
        | true =>
          rw [hf] at h
          simp at h
        | false =>
          rw [hf] at hflag
          have hany := List.any_eq_false.mp hflag.symm
          intro p hp
          have := hany p hp
          simpa using this
    · intro hall
      have hany : (rs.any fun p => !(p.1 == "unknown")) = false := by
        rw [List.any_eq_false]
        intro p hp
        simp [hall p hp]
      have hf : (runResults m false rs).2.1 = false := by rw [hflag, hany]
      simp only [runTick, List.mem_append, hf]
      right
      simp
  · decide

/-- The first emission for a label within a tick stores its (non-zero)
timestamp, and every later occurrence of that label in the same forEach —
all timestamps lying within one cooldown of each other — fails the strict
cooldown test: no further `marked` event for it is emitted. -/
theorem runResults_no_remark (l : String) (rs : List (String × Int)) :
    ∀ (m : LastSeen) (fd : Bool) (t : Int),
      m l = some t → t ≠ 0 → (∀ p ∈ rs, p.2 - t ≤ cooldown) →
      marksOf l (runResults m fd rs).2.2 = [] := by
  induction rs with
  | nil => intro m fd t _ _ _; simp [runResults, marksOf_nil]
  | cons p rest ih =>
    intro m fd t hml ht0 hcl
    obtain ⟨name, now⟩ := p
    have hclr : ∀ q ∈ rest, q.2 - t ≤ cooldown := fun q hq =>
      hcl q (List.mem_cons_of_mem _ hq)
    rw [runResults_cons]
    by_cases hname : name = "unknown"
    · subst hname
      simp only [processDetection_unknown, List.nil_append]
      exact ih m fd t hml ht0 hclr
    · by_cases hl : name = l
      · subst hl
        have hmc : markCond m name now = false := by
          have h0 : (t == 0) = false := by simp [ht0]
          have hle : now - t ≤ cooldown := by
            have := hcl (name, now) (List.mem_cons_self _ _)
            simpa using this
          simp [markCond, hml, h0, decide_eq_false (Int.not_lt.mpr hle)]
        simp only [processDetection_skip m fd name now hname hmc, List.nil_append]
        exact ih m true t hml ht0 hclr
      · cases hmc : markCond m name now with
        | false =>
          simp only [processDetection_skip m fd name now hname hmc, List.nil_append]
          exact ih m true t hml ht0 hclr
        | true =>
          simp only [processDetection_mark m fd name now hname hmc]
          rw [List.singleton_append, marksOf_marked_other l name now _ hl]
          have hml' : setLast m name now l = some t := by
            rw [setLast_other m name l now fun h => hl h.symm, hml]
          exact ih (setLast m name now) true t hml' ht0 hclr

/-- Within one forEach over results whose timestamps are positive and
within one cooldown of each other, at most one `marked` event per label is
emitted, whatever the starting map. -/
theorem runResults_marks_le_one (l : String) (rs : List (String × Int)) :
    ∀ (m : LastSeen) (fd : Bool),
      (∀ p ∈ rs, 0 < p.2) →
      (∀ p ∈ rs, ∀ q ∈ rs, p.2 - q.2 ≤ cooldown) →
      (marksOf l (runResults m fd rs).2.2).length ≤ 1 := by
  induction rs with
  | nil => intro m fd _ _; simp [runResults, marksOf_nil]
  | cons p rest ih =>
    intro m fd hpos hcl
    obtain ⟨name, now⟩ := p
    have hposr : ∀ q ∈ rest, 0 < q.2 := fun q hq => hpos q (List.mem_cons_of_mem _ hq)
    have hclr : ∀ a ∈ rest, ∀ b ∈ rest, a.2 - b.2 ≤ cooldown := fun a ha b hb =>
      hcl a (List.mem_cons_of_mem _ ha) b (List.mem_cons_of_mem _ hb)
    rw [runResults_cons]
    by_cases hname : name = "unknown"
    · subst hname
      simp only [processDetection_unknown, List.nil_append]
      exact ih m fd hposr hclr
    · cases hmc : markCond m name now with
      | false =>
        simp only [processDetection_skip m fd name now hname hmc, List.nil_append]
        exact ih m true hposr hclr
      | true =>
        simp only [processDetection_mark m fd name now hname hmc]
        by_cases hl : name = l
        · subst hl
          rw [List.singleton_append, marksOf_marked_self]
          have hnow : 0 < now := by simpa using hpos _ (List.mem_cons_self _ _)
          have hempty := runResults_no_remark name rest (setLast m name now) true now
            (setLast_self m name now) (by omega)
            (fun q hq => by
              have := hcl q (List.mem_cons_of_mem _ hq) (name, now)
                (List.mem_cons_self _ _)
              simpa using this)
          rw [hempty]
          simp
        · rw [List.singleton_append, marksOf_marked_other l name now _ hl]
          exact ih (setLast m name now) true hposr hclr

/-- Claim C9: within a single tick, `onAttendanceMarked` fires at most
once per label, even when the same known label occurs several times among
the tick's results: the first emission stores its (positive) timestamp, so
every later occurrence of the label in the same tick fails the strict
cooldown test. -/
theorem at_most_one_mark_per_tick (m : LastSeen) (rs : List (String × Int))
    (l : String) (hpos : resultTimesPos rs = true)
    (hclose : resultTimesClose rs = true) :
    (marksOf l (runTick m rs).2).length ≤ 1 := by
  have hpos' : ∀ p ∈ rs, 0 < p.2 := by
    simpa [resultTimesPos, List.all_eq_true] using hpos
  have hcl' : ∀ p ∈ rs, ∀ q ∈ rs, p.2 - q.2 ≤ cooldown := by
    have := hclose
    simp only [resultTimesClose, List.all_eq_true, decide_eq_true_eq] at this
    exact this
  simp only [runTick]
  rw [marksOf_append, marksOf_ite_notDetected, List.append_nil]
  exact runResults_marks_le_one l rs m false hpos' hcl'

/-- Witness for the claim C9 theorem: two occurrences of `"Student1"` in
one tick yield at most one notification. -/
theorem at_most_one_mark_per_tick_witness :
    (marksOf "Student1"
      (runTick emptyLastSeen [("Student1", 5), ("Student1", 5)]).2).length ≤ 1 :=
  at_most_one_mark_per_tick emptyLastSeen [("Student1", 5), ("Student1", 5)]
    "Student1" (by decide) (by decide)

/-- Claim C7: starting from the empty map, ticks detecting `"Student1"` at
clock values `b`, `b` + 30000 and `b` + 61000 (with `b` the positive
`Date.now()` of the session's first tick) produce exactly two
notifications: one at `b` and one at `b` + 61000; the detection at
`b` + 30000 produces none, and no other callback fires. -/
theorem scenario_three_ticks (b : Int) (hb : 0 < b) :
    (runSession emptyLastSeen
        [Except.ok [("Student1", b)],
         Except.ok [("Student1", b + 30000)],
         Except.ok [("Student1", b + 61000)]]).2
      = [Event.marked "Student1" b, Event.marked "Student1" (b + 61000)] := by
  have hb0 : (b == 0) = false := by simp; omega
  have hlt30 : ¬ ((cooldown : Int) < 30000) := by simp only [cooldown]; omega
  have hlt61 : ((cooldown : Int) < 61000) := by simp only [cooldown]; omega
  simp [runSession, runTickE, runTick, runResults, processDetection, markCond,
    setLast, emptyLastSeen, hb0, hlt30, hlt61]

/-- Witness for the claim C7 theorem at `b` = 1. -/
theorem scenario_three_ticks_witness :
    (runSession emptyLastSeen
        [Except.ok [("Student1", 1)],
         Except.ok [("Student1", 1 + 30000)],
         Except.ok [("Student1", 1 + 61000)]]).2
      = [Event.marked "Student1" 1, Event.marked "Student1" (1 + 61000)] :=
  scenario_three_ticks 1 (by decide)

end FaceAttendance
